import Mathlib

/-!
Verification of the Solid chat-message history store
(`chatdocs/memory/solid_message_history.py`).

The development shallowly embeds the RDF data model used by
`SolidChatMessageHistory`: graphs are finite lists of triples with
set-like insertion (mirroring `rdflib.Graph`), the SPARQL updates built
by `add_message` are represented by a small patch datatype, and the
network is modelled by per-request outcomes (an HTTP response with a
status code, or a connection error that raises in Python unless caught).
-/

set_option maxRecDepth 4096

namespace SolidHistory

/-- RDF terms as used by the source: URI references, blank nodes
(identified here by an allocation counter, mirroring the fresh labels of
`rdflib.BNode()`), and string literals (`Literal(_, datatype=XSD.string)`). -/
inductive Term where
  | uri (s : String)
  | bnode (n : Nat)
  | lit (s : String)
deriving DecidableEq, Repr

/-- An RDF triple (subject, predicate, object). -/
abbrev Triple := Term × Term × Term

/-- A graph is the list of its triples; insertion is set-like
(`Graph.add`), so a graph built by the operations below has no
duplicate triples, like an `rdflib.Graph`. -/
abbrev Graph := List Triple

/-- Vocabulary: `RDF.type`. -/
def rdfType : Term := .uri "http://www.w3.org/1999/02/22-rdf-syntax-ns#type"

/-- Vocabulary: `RDF.List`. -/
def rdfList : Term := .uri "http://www.w3.org/1999/02/22-rdf-syntax-ns#List"

/-- Vocabulary: `RDF.first`. -/
def rdfFirst : Term := .uri "http://www.w3.org/1999/02/22-rdf-syntax-ns#first"

/-- Vocabulary: `RDF.rest`. -/
def rdfRest : Term := .uri "http://www.w3.org/1999/02/22-rdf-syntax-ns#rest"

/-- Vocabulary: `RDF.nil`, the list terminator. -/
def rdfNil : Term := .uri "http://www.w3.org/1999/02/22-rdf-syntax-ns#nil"

/-- Vocabulary: `PROF.ResourceDescriptor`. -/
def profResourceDescriptor : Term := .uri "http://www.w3.org/ns/dx/prof/ResourceDescriptor"

/-- Vocabulary: `PROF.hasResource` (carries the message content). -/
def profHasResource : Term := .uri "http://www.w3.org/ns/dx/prof/hasResource"

/-- Vocabulary: `PROF.hasRole` (carries the message role tag). -/
def profHasRole : Term := .uri "http://www.w3.org/ns/dx/prof/hasRole"

/-- Set-like insertion, as in `rdflib.Graph.add`. -/
def Graph.add (g : Graph) (t : Triple) : Graph :=
  if t ∈ g then g else g ++ [t]

/-- Insertion of a batch of triples, used for `INSERT` application and
for `Graph.parse` (which in rdflib adds the parsed triples to the
existing graph). -/
def Graph.addAll (g : Graph) (ts : List Triple) : Graph :=
  ts.foldl Graph.add g

/-- Model of `graph.value(subject=s, predicate=p)`: the object of the
first triple with the given subject and predicate (rdflib returns an
arbitrary match; the graphs of interest have at most one). -/
def Graph.valueSP (g : Graph) (s p : Term) : Option Term :=
  (g.find? fun t => decide (t.1 = s ∧ t.2.1 = p)).map (fun t => t.2.2)

/-- Model of `graph.value(predicate=p, object=o)`: the subject of the
first triple with the given predicate and object. -/
def Graph.valuePO (g : Graph) (p o : Term) : Option Term :=
  (g.find? fun t => decide (t.2.1 = p ∧ t.2.2 = o)).map (fun t => t.1)

/-- Chat message as used by the source (`langchain_core` `BaseMessage`
with a free-text `content` and a `type` string holding the role tag). -/
structure BaseMessage where
  content : String
  type : String
deriving DecidableEq, Repr

/-- Model of `Node.toPython()` as applied in `messages`: URI refs and
literals yield their string, blank nodes their label. Only `None`
(a missing value) would raise, which the caller models separately. -/
def Term.toPython : Term → String
  | .uri s => s
  | .bnode n => toString n
  | .lit s => s

/-- Python truthiness of an rdflib node (`while list:` in
`Graph.items`): empty-string URIs and literals are falsy; generated
blank-node labels are never empty. -/
def Term.truthy : Term → Bool
  | .uri s => decide (s ≠ "")
  | .bnode _ => true
  | .lit s => decide (s ≠ "")

/-- Model of `rdflib.Graph.items` (the iterator behind
`Collection.__iter__`), which walks the `rdf:rest` chain from `node`,
yielding each `rdf:first` value, and raises `ValueError` (here `none`)
on a recursive `rdf:rest` reference. The fuel argument bounds the walk;
`items` below supplies enough fuel that exhaustion is unreachable. -/
def itemsAux (g : Graph) : Nat → List Term → Term → Option (List Term)
  | 0, _, _ => none
  | fuel + 1, chain, node =>
    if node.truthy then
      let acc := match Graph.valueSP g node rdfFirst with
        | some i => [i]
        | none => []
      match Graph.valueSP g node rdfRest with
      | none => some acc
      | some next =>
        if next ∈ chain then none
        else (itemsAux g fuel (next :: chain) next).map (fun rest => acc ++ rest)
    else some []

/-- Iteration over the RDF collection rooted at `node`. -/
def items (g : Graph) (node : Term) : Option (List Term) :=
  itemsAux g (g.length + 2) [node] node

/-- Decoding of one message descriptor node, as in the comprehension in
`messages`: read `PROF.hasResource` and `PROF.hasRole` and call
`toPython`; a missing value means `None.toPython()` raises (`none`). -/
def decodeMsg (g : Graph) (msg : Term) : Option BaseMessage :=
  match Graph.valueSP g msg profHasResource, Graph.valueSP g msg profHasRole with
  | some c, some r => some ⟨c.toPython, r.toPython⟩
  | _, _ => none

/-- Decoding of the item nodes returned by the collection walk. -/
def decodeMsgs (g : Graph) (nodes : List Term) : Option (List BaseMessage) :=
  nodes.mapM (decodeMsg g)

/-- The decode path of `messages`: locate a node of type `rdf:List`
(`graph.value(predicate=RDF.type, object=RDF.List)`); if none, return
the empty list; otherwise walk the collection and decode each
descriptor. `none` models an exception escaping the decode. -/
def decodeGraph (g : Graph) : Option (List BaseMessage) :=
  match Graph.valuePO g rdfType rdfList with
  | none => some []
  | some listNode => (items g listNode).bind (decodeMsgs g)

/-- Model of `rdflib.Collection._end`: follow `rdf:rest` links from
`container` until a node with no `rdf:rest` value; `none` models
nontermination of the Python loop on a cyclic chain. -/
def collectionEnd (g : Graph) : Term → Nat → Option Term
  | _, 0 => none
  | container, fuel + 1 =>
    match Graph.valueSP g container rdfRest with
    | none => some container
    | some rest => collectionEnd g rest fuel

/-- Model of `rdflib.Collection.append`: find the end of the chain; if
the end already has an `rdf:first`, attach a fresh node (`freshNode`
models the `BNode()` allocated there) with `Graph.set` on its
`rdf:rest`; then add `rdf:first item` and `rdf:rest rdf:nil` at the
end. -/
def collectionAppend (g : Graph) (container item freshNode : Term) : Option Graph :=
  (collectionEnd g container (g.length + 1)).map fun e =>
    if g.any (fun t => decide (t.1 = e ∧ t.2.1 = rdfFirst)) then
      let g1 := Graph.add (g.filter fun t => !decide (t.1 = e ∧ t.2.1 = rdfRest))
        (e, rdfRest, freshNode)
      Graph.add (Graph.add g1 (freshNode, rdfFirst, item)) (freshNode, rdfRest, rdfNil)
    else
      Graph.add (Graph.add g (e, rdfFirst, item)) (e, rdfRest, rdfNil)

/-- The SPARQL update text built by `add_message`, abstracted to its
structure: `insertData ts` is `INSERT DATA` with the listed triples;
`condAppend newItem ts` is the conditional update
`DELETE (end, rdf:rest, rdf:nil) / INSERT (end, rdf:rest, newItem)
plus ts / WHERE (end, rdf:rest, rdf:nil)` with `end` a query variable.
Blank-node labels in the text are represented by the `Term.bnode`
values chosen fresh by the builder. -/
inductive Patch where
  | insertData (triples : List Triple)
  | condAppend (newItem : Term) (triples : List Triple)
deriving DecidableEq, Repr

/-- Triples occurring in the insert template of a patch (not counting
the tail-relink triple of a conditional patch, whose subject is a query
variable). -/
def Patch.insertTriples : Patch → List Triple
  | .insertData ts => ts
  | .condAppend _ ts => ts

/-- The URI `{pod_base_url}private/chatdocs.ttl#messages` of the list
head created on first append. -/
def msgsNode (pod : String) : Term :=
  .uri (pod ++ "private/chatdocs.ttl#messages")

/-- The patch-construction part of `add_message`: build the
`update_graph` holding the new descriptor (a fresh blank node
`Term.bnode c` with type, content and role), then either create the
list head (no `rdf:List`-typed node in the mirror) with
`Collection.append`, yielding an `INSERT DATA` patch, or produce the
conditional tail patch with a fresh element node `Term.bnode (c+1)`.
`none` models nontermination of the collection end-walk (unreachable,
see `buildAppendPatch_isSome`). -/
def buildAppendPatch (pod : String) (g : Graph) (message : BaseMessage) (c : Nat) :
    Option Patch :=
  let msg := Term.bnode c
  let u0 := Graph.add (Graph.add (Graph.add [] (msg, rdfType, profResourceDescriptor))
      (msg, profHasResource, .lit message.content)) (msg, profHasRole, .lit message.type)
  match Graph.valuePO g rdfType rdfList with
  | none =>
    let mn := msgsNode pod
    let u1 := Graph.add u0 (mn, rdfType, rdfList)
    (collectionAppend u1 mn msg (Term.bnode (c + 1))).map .insertData
  | some _ =>
    let newItem := Term.bnode (c + 1)
    some (.condAppend newItem
      (Graph.add (Graph.add u0 (newItem, rdfFirst, msg)) (newItem, rdfRest, rdfNil)))

/-- Matches the delete/where template `?end rdf:rest rdf:nil`. -/
def tailPred (t : Triple) : Bool :=
  decide (t.2.1 = rdfRest ∧ t.2.2 = rdfNil)

/-- Application of a patch to a graph, the common semantics of the
server applying the PATCH body and of `self.graph.update(sparql)`:
`INSERT DATA` adds the triples; the conditional patch binds `?end` to
every subject of a `(end, rdf:rest, rdf:nil)` triple, deletes those
triples, and inserts the relink triple and the template triples. (The
graphs of interest have at most one such binding, so instantiating the
template blank nodes once is faithful.) -/
def applyPatch : Patch → Graph → Graph
  | .insertData ts, g => Graph.addAll g ts
  | .condAppend newItem ts, g =>
    let ends := (g.filter tailPred).map (fun t => t.1)
    let afterDel := g.filter fun t => !tailPred t
    Graph.addAll afterDel (ends.flatMap fun e => (e, rdfRest, newItem) :: ts)

/-- Iterated append at the codec level: for each message, build the
patch from the current graph (fresh blank-node counter advancing by two
per append, as `add_message` allocates) and apply it, as the identical
SPARQL text is applied by `graph.update`. -/
def appendK (pod : String) : Graph → Nat → List BaseMessage → Option Graph
  | g, _, [] => some g
  | g, c, m :: ms =>
    match buildAppendPatch pod g m c with
    | none => none
    | some p => appendK pod (applyPatch p g) (c + 2) ms

/-- Codec round trip: append a sequence of messages starting from the
empty graph, then decode. -/
def roundTrip (pod : String) (msgs : List BaseMessage) : Option (List BaseMessage) :=
  (appendK pod [] 0 msgs).bind decodeGraph

/-- Outcome of one HTTP request issued through the session: a response
with its status code (and, for GET, the parsed body), or a connection
error, which `requests` surfaces by raising `ConnectionError`. -/
inductive Outcome where
  | resp (status : Nat) (body : Graph)
  | connErr
deriving DecidableEq, Repr

/-- Model of `is_item_available`: HEAD the url; `res.ok` is
`status < 400`; a `ConnectionError` is caught and yields `False`. -/
def is_item_available : Outcome → Bool
  | .resp status _ => decide (status < 400)
  | .connErr => false

/-- Model of `create_item`: conditional PUT (`If-None-Match: *`);
returns `res.ok`; there is no exception handler, so a connection error
propagates (`Except.error`). -/
def create_item : Outcome → Except Unit Bool
  | .resp status _ => .ok (decide (status < 400))
  | .connErr => .error ()

/-- The check-and-create path of `messages`
(`if not is_item_available(url): create_item(url)`), read as the
`ensure` operation of the specification with the created/existing
result as its boolean. -/
def ensure (headOut putOut : Outcome) : Except Unit Bool :=
  if is_item_available headOut then .ok true else create_item putOut

/-- Outcomes of the five requests `messages` can issue: HEAD and PUT on
the `private/` container, HEAD and PUT on `chatdocs.ttl`, and the GET. -/
structure MessagesEnv where
  headContainer : Outcome
  putContainer : Outcome
  headDoc : Outcome
  putDoc : Outcome
  getDoc : Outcome
deriving DecidableEq, Repr

/-- Model of `self.graph.parse(data=res.text, ...)`: rdflib `parse`
adds the parsed triples to the existing graph. -/
def graphParse (g parsed : Graph) : Graph :=
  Graph.addAll g parsed

/-- Model of the `messages` property: ensure the container and document
exist (results discarded, but an uncaught `ConnectionError` from the
PUT propagates); GET the document; on a non-success response return the
empty list leaving the mirror untouched; on success parse the body into
the mirror and decode it. The result pairs the new mirror with the
returned message list; `Except.error` models an escaping exception. -/
def messages (env : MessagesEnv) (mirror : Graph) :
    Except Unit (Graph × List BaseMessage) :=
  match (if is_item_available env.headContainer then .ok true
         else create_item env.putContainer : Except Unit Bool) with
  | .error e => .error e
  | .ok _ =>
    match (if is_item_available env.headDoc then .ok true
           else create_item env.putDoc : Except Unit Bool) with
    | .error e => .error e
    | .ok _ =>
      match env.getDoc with
      | .connErr => .error ()
      | .resp status body =>
        if status < 400 then
          let g := graphParse mirror body
          match decodeGraph g with
          | some msgs => .ok (g, msgs)
          | none => .error ()
        else .ok (mirror, [])

/-- Model of `add_message`: build the patch, PATCH it to the remote
document (response ignored), then apply the identical patch to the
mirror with `graph.update`. A connection error from `session.patch`
raises before the mirror update. -/
def add_message (pod : String) (patchOut : Outcome) (g : Graph) (message : BaseMessage)
    (c : Nat) : Except Unit Graph :=
  match buildAppendPatch pod g message c with
  | none => .error ()
  | some p =>
    match patchOut with
    | .connErr => .error ()
    | .resp _ _ => .ok (applyPatch p g)

/-- Model of `clear`: DELETE the remote document, then replace the
mirror with a fresh empty graph. A connection error from
`session.delete` raises before the reset, leaving the mirror as it
was. -/
def clear (deleteOut : Outcome) (mirror : Graph) : Except Unit Graph :=
  match deleteOut with
  | .connErr => .error ()
  | .resp _ _ => .ok []

/-- The three descriptor triples `add_message` creates for a message on
the fresh blank node `msg`. -/
def descTriples (msg : Term) (m : BaseMessage) : List Triple :=
  [(msg, rdfType, profResourceDescriptor),
   (msg, profHasResource, .lit m.content),
   (msg, profHasRole, .lit m.type)]

/-- Shape of the stored list beyond its first element: starting from the
element node `prev`, each further message `m` occupies a descriptor
blank node `bnode c` and an element blank node `bnode (c+1)`, and the
final element links to `rdf:nil`. The triple order matches the order in
which the operations build the mirror. -/
def chainTail (prev : Term) (c : Nat) : List BaseMessage → Graph
  | [] => [(prev, rdfRest, rdfNil)]
  | m :: ms =>
    (prev, rdfRest, Term.bnode (c + 1)) ::
      (descTriples (Term.bnode c) m ++
        ((Term.bnode (c + 1), rdfFirst, Term.bnode c) :: chainTail (Term.bnode (c + 1)) (c + 2) ms))

/-- The exact mirror graph after appending `m0 :: ms` to an empty
store: the head node doubles as the first element node, holding the
`rdf:List` type mark, and the tail chain follows. -/
def historyGraph (pod : String) (m0 : BaseMessage) (ms : List BaseMessage) : Graph :=
  descTriples (Term.bnode 0) m0 ++
    ((msgsNode pod, rdfType, rdfList) :: (msgsNode pod, rdfFirst, Term.bnode 0) ::
      chainTail (msgsNode pod) 2 ms)

/-- Descriptor nodes of the chain-tail messages, in chain order. -/
def msgNodes (c : Nat) : List BaseMessage → List Term
  | [] => []
  | _ :: ms => Term.bnode c :: msgNodes (c + 2) ms

/-- The element node currently linking to `rdf:nil` in
`chainTail prev c ms`. -/
def lastNode (prev : Term) (c : Nat) : List BaseMessage → Term
  | [] => prev
  | _ :: ms => lastNode (Term.bnode (c + 1)) (c + 2) ms

/-- Bound on the blank-node labels occurring anywhere in a triple. -/
def Triple.bnBelow (k : Nat) (t : Triple) : Prop :=
  (∀ j, t.1 = Term.bnode j → j < k) ∧ (∀ j, t.2.1 = Term.bnode j → j < k) ∧
    (∀ j, t.2.2 = Term.bnode j → j < k)

theorem mem_add {g : Graph} {t x : Triple} :
    x ∈ Graph.add g t ↔ x ∈ g ∨ x = t := by
  unfold Graph.add
  split
  · rename_i h
    constructor
    · exact Or.inl
    · rintro (hx | rfl) <;> [exact hx; exact h]
  · simp

theorem mem_addAll {ts : List Triple} {g : Graph} {x : Triple} :
    x ∈ Graph.addAll g ts ↔ x ∈ g ∨ x ∈ ts := by
  induction ts generalizing g with
  | nil => simp [Graph.addAll]
  | cons t ts ih =>
    show x ∈ Graph.addAll (Graph.add g t) ts ↔ _
    rw [ih, mem_add]
    simp [or_assoc]

theorem add_of_not_mem {g : Graph} {t : Triple} (h : t ∉ g) :
    Graph.add g t = g ++ [t] := by
  simp [Graph.add, h]

theorem addAll_fresh : ∀ (ts : List Triple) (g : Graph),
    (∀ t ∈ ts, t ∉ g) → ts.Nodup → Graph.addAll g ts = g ++ ts := by
  intro ts
  induction ts with
  | nil => simp [Graph.addAll]
  | cons t ts ih =>
    intro g hfresh hnd
    show Graph.addAll (Graph.add g t) ts = _
    rw [add_of_not_mem (hfresh t (by simp)), ih]
    · simp
    · intro u hu
      rw [List.mem_append]
      rintro (hg | hone)
      · exact hfresh u (by simp [hu]) hg
      · simp at hone
        subst hone
        exact (List.nodup_cons.mp hnd).1 hu
    · exact (List.nodup_cons.mp hnd).2

theorem find?_append_none {p : Triple → Bool} {A B : Graph}
    (h : A.find? p = none) : (A ++ B).find? p = B.find? p := by
  induction A with
  | nil => simp
  | cons a A ih =>
    cases hp : p a with
    | true => rw [List.find?_cons_of_pos _ hp] at h; exact absurd h (by simp)
    | false =>
      rw [List.find?_cons_of_neg _ (by simp [hp])] at h
      rw [List.cons_append, List.find?_cons_of_neg _ (by simp [hp])]
      exact ih h

theorem find?_append_some {p : Triple → Bool} {A B : Graph} {x : Triple}
    (h : A.find? p = some x) : (A ++ B).find? p = some x := by
  induction A with
  | nil => simp at h
  | cons a A ih =>
    cases hp : p a with
    | true =>
      rw [List.find?_cons_of_pos _ hp] at h
      rw [List.cons_append, List.find?_cons_of_pos _ hp]
      exact h
    | false =>
      rw [List.find?_cons_of_neg _ (by simp [hp])] at h
      rw [List.cons_append, List.find?_cons_of_neg _ (by simp [hp])]
      exact ih h

theorem valueSP_append_left {A B : Graph} {s p v : Term}
    (h : Graph.valueSP A s p = some v) : Graph.valueSP (A ++ B) s p = some v := by
  unfold Graph.valueSP at h ⊢
  cases hf : A.find? fun t => decide (t.1 = s ∧ t.2.1 = p) with
  | none => rw [hf] at h; simp at h
  | some t =>
    rw [hf] at h
    rw [find?_append_some hf]
    exact h

theorem valueSP_append_right {A B : Graph} {s p : Term}
    (h : ∀ t ∈ A, ¬(t.1 = s ∧ t.2.1 = p)) :
    Graph.valueSP (A ++ B) s p = Graph.valueSP B s p := by
  unfold Graph.valueSP
  rw [find?_append_none]
  rw [List.find?_eq_none]
  intro t ht
  simpa using h t ht

theorem valueSP_nil {s p : Term} : Graph.valueSP [] s p = none := rfl

theorem valueSP_cons {t : Triple} {g : Graph} {s p : Term} :
    Graph.valueSP (t :: g) s p =
      if t.1 = s ∧ t.2.1 = p then some t.2.2 else Graph.valueSP g s p := by
  unfold Graph.valueSP
  by_cases h : t.1 = s ∧ t.2.1 = p
  · rw [List.find?_cons_of_pos _ (by simpa using h), if_pos h]
    rfl
  · rw [List.find?_cons_of_neg _ (by simpa using h), if_neg h]

theorem valuePO_cons {t : Triple} {g : Graph} {p o : Term} :
    Graph.valuePO (t :: g) p o =
      if t.2.1 = p ∧ t.2.2 = o then some t.1 else Graph.valuePO g p o := by
  unfold Graph.valuePO
  by_cases h : t.2.1 = p ∧ t.2.2 = o
  · rw [List.find?_cons_of_pos _ (by simpa using h), if_pos h]
    rfl
  · rw [List.find?_cons_of_neg _ (by simpa using h), if_neg h]

theorem descTriples_build (m : BaseMessage) (c : Nat) :
    Graph.add (Graph.add (Graph.add [] (Term.bnode c, rdfType, profResourceDescriptor))
        (Term.bnode c, profHasResource, .lit m.content))
      (Term.bnode c, profHasRole, .lit m.type) = descTriples (Term.bnode c) m := by
  simp [Graph.add, descTriples, rdfType, profHasResource, profHasRole, profResourceDescriptor]

theorem buildAppendPatch_none {g : Graph} (pod : String) (m : BaseMessage) (c : Nat)
    (h : Graph.valuePO g rdfType rdfList = none) :
    buildAppendPatch pod g m c = some (.insertData
      (descTriples (Term.bnode c) m ++
        [(msgsNode pod, rdfType, rdfList), (msgsNode pod, rdfFirst, Term.bnode c),
         (msgsNode pod, rdfRest, rdfNil)])) := by
  simp only [buildAppendPatch, h]
  rw [descTriples_build]
  have hu1 : Graph.add (descTriples (Term.bnode c) m) (msgsNode pod, rdfType, rdfList) =
      descTriples (Term.bnode c) m ++ [(msgsNode pod, rdfType, rdfList)] := by
    apply add_of_not_mem
    simp [descTriples, msgsNode]
  rw [hu1]
  have hend : collectionEnd (descTriples (Term.bnode c) m ++ [(msgsNode pod, rdfType, rdfList)])
      (msgsNode pod) ((descTriples (Term.bnode c) m ++ [(msgsNode pod, rdfType, rdfList)]).length + 1) =
      some (msgsNode pod) := by
    unfold collectionEnd
    simp [descTriples, valueSP_cons, valueSP_nil, msgsNode, rdfType, rdfRest]
  unfold collectionAppend
  rw [hend]
  have hany : ((descTriples (Term.bnode c) m ++ [(msgsNode pod, rdfType, rdfList)]).any
      fun t => decide (t.1 = msgsNode pod ∧ t.2.1 = rdfFirst)) = false := by
    simp [descTriples, msgsNode, rdfType, rdfFirst]
  simp only [Option.map_some']
  rw [hany]
  simp only [Bool.false_eq_true, if_false]
  have h1 : Graph.add (descTriples (Term.bnode c) m ++ [(msgsNode pod, rdfType, rdfList)])
      (msgsNode pod, rdfFirst, Term.bnode c) =
      descTriples (Term.bnode c) m ++
        [(msgsNode pod, rdfType, rdfList), (msgsNode pod, rdfFirst, Term.bnode c)] := by
    rw [add_of_not_mem (by simp [descTriples, msgsNode, rdfType, rdfFirst])]
    simp
  rw [h1]
  rw [add_of_not_mem (by simp [descTriples, msgsNode, rdfType, rdfFirst, rdfRest, rdfNil])]
  simp

theorem buildAppendPatch_some {g : Graph} (pod : String) (m : BaseMessage) (c : Nat)
    {ln : Term} (h : Graph.valuePO g rdfType rdfList = some ln) :
    buildAppendPatch pod g m c = some (.condAppend (Term.bnode (c + 1))
      (descTriples (Term.bnode c) m ++
        [(Term.bnode (c + 1), rdfFirst, Term.bnode c),
         (Term.bnode (c + 1), rdfRest, rdfNil)])) := by
  simp only [buildAppendPatch, h]
  rw [descTriples_build]
  have h1 : Graph.add (descTriples (Term.bnode c) m)
      (Term.bnode (c + 1), rdfFirst, Term.bnode c) =
      descTriples (Term.bnode c) m ++ [(Term.bnode (c + 1), rdfFirst, Term.bnode c)] := by
    apply add_of_not_mem
    simp [descTriples]
  rw [h1]
  rw [add_of_not_mem (by simp [descTriples, rdfFirst, rdfRest])]
  simp

theorem buildAppendPatch_isSome (pod : String) (g : Graph) (m : BaseMessage) (c : Nat) :
    ∃ p, buildAppendPatch pod g m c = some p := by
  cases h : Graph.valuePO g rdfType rdfList with
  | none => exact ⟨_, buildAppendPatch_none pod m c h⟩
  | some ln => exact ⟨_, buildAppendPatch_some pod m c h⟩

theorem tailPred_desc {x : Term} {m : BaseMessage} {t : Triple}
    (ht : t ∈ descTriples x m) : tailPred t = false := by
  simp only [descTriples, List.mem_cons, List.mem_singleton] at ht
  rcases ht with rfl | rfl | rfl | h
  · simp [tailPred, rdfType, rdfRest]
  · simp [tailPred, profHasResource, rdfRest]
  · simp [tailPred, profHasRole, rdfRest]
  · cases h

theorem chainTail_filter_tail : ∀ (ms : List BaseMessage) (prev : Term) (c : Nat),
    (chainTail prev c ms).filter tailPred = [(lastNode prev c ms, rdfRest, rdfNil)] := by
  intro ms
  induction ms with
  | nil =>
    intro prev c
    simp [chainTail, lastNode, tailPred]
  | cons m ms ih =>
    intro prev c
    show ((prev, rdfRest, Term.bnode (c + 1)) ::
        (descTriples (Term.bnode c) m ++
          ((Term.bnode (c + 1), rdfFirst, Term.bnode c) ::
            chainTail (Term.bnode (c + 1)) (c + 2) ms))).filter tailPred = _
    rw [List.filter_cons_of_neg (by simp [tailPred, rdfNil]), List.filter_append,
      List.filter_cons_of_neg (by simp [tailPred, rdfFirst, rdfRest])]
    rw [show (descTriples (Term.bnode c) m).filter tailPred = [] from
      List.filter_eq_nil_iff.mpr (fun t ht => by simp [tailPred_desc ht])]
    simp only [List.nil_append]
    rw [ih]
    rfl

theorem chainTail_filter_notTail : ∀ (ms : List BaseMessage) (m : BaseMessage) (prev : Term)
    (c d : Nat), d = c + 2 * ms.length →
    chainTail prev c (ms ++ [m]) =
      (chainTail prev c ms).filter (fun t => !tailPred t) ++
        ((lastNode prev c ms, rdfRest, Term.bnode (d + 1)) ::
          (descTriples (Term.bnode d) m ++
            [(Term.bnode (d + 1), rdfFirst, Term.bnode d),
             (Term.bnode (d + 1), rdfRest, rdfNil)])) := by
  intro ms
  induction ms with
  | nil =>
    intro m prev c d hd
    have hd2 : c = d := by simpa using hd.symm
    subst hd2
    rw [show (chainTail prev c []).filter (fun t => !tailPred t) = ([] : Graph) from by
      simp [chainTail, tailPred]]
    simp [chainTail, lastNode]
  | cons m0 ms ih =>
    intro m prev c d hd
    show chainTail prev c (m0 :: (ms ++ [m])) = _
    rw [show chainTail prev c (m0 :: (ms ++ [m])) =
        (prev, rdfRest, Term.bnode (c + 1)) ::
          (descTriples (Term.bnode c) m0 ++
            ((Term.bnode (c + 1), rdfFirst, Term.bnode c) ::
              chainTail (Term.bnode (c + 1)) (c + 2) (ms ++ [m]))) from rfl]
    rw [ih m (Term.bnode (c + 1)) (c + 2) d (by simp at hd ⊢; omega)]
    rw [show chainTail prev c (m0 :: ms) =
        (prev, rdfRest, Term.bnode (c + 1)) ::
          (descTriples (Term.bnode c) m0 ++
            ((Term.bnode (c + 1), rdfFirst, Term.bnode c) ::
              chainTail (Term.bnode (c + 1)) (c + 2) ms)) from rfl]
    rw [List.filter_cons_of_pos (by simp [tailPred, rdfNil]), List.filter_append,
      List.filter_cons_of_pos (by simp [tailPred, rdfFirst, rdfRest])]
    rw [show (descTriples (Term.bnode c) m0).filter (fun t => !tailPred t) =
        descTriples (Term.bnode c) m0 from
      List.filter_eq_self.mpr (fun t ht => by simp [tailPred_desc ht])]
    rw [show lastNode prev c (m0 :: ms) = lastNode (Term.bnode (c + 1)) (c + 2) ms from rfl]
    simp

theorem chainTail_bnBelow : ∀ (ms : List BaseMessage) (prev : Term) (c k : Nat),
    (∀ j, prev = Term.bnode j → j < k) → c + 2 * ms.length ≤ k →
    ∀ t ∈ chainTail prev c ms, Triple.bnBelow k t := by
  intro ms
  induction ms with
  | nil =>
    intro prev c k hprev hck t ht
    simp only [chainTail, List.mem_singleton] at ht
    subst ht
    refine ⟨hprev, ?_, ?_⟩ <;> intro j hj <;> simp [rdfRest, rdfNil] at hj
  | cons m ms ih =>
    intro prev c k hprev hck t ht
    simp only [List.length_cons] at hck
    rw [show chainTail prev c (m :: ms) = (prev, rdfRest, Term.bnode (c + 1)) ::
        (descTriples (Term.bnode c) m ++
          ((Term.bnode (c + 1), rdfFirst, Term.bnode c) ::
            chainTail (Term.bnode (c + 1)) (c + 2) ms)) from rfl] at ht
    simp only [List.mem_cons, List.mem_append, descTriples, List.mem_singleton] at ht
    rcases ht with rfl | (rfl | rfl | rfl | h) | rfl | h
    · exact ⟨hprev, fun j hj => by simp [rdfRest] at hj,
        fun j hj => by simp at hj; omega⟩
    · refine ⟨fun j hj => by simp at hj; omega, ?_, ?_⟩ <;> intro j hj <;>
        simp [rdfType, profResourceDescriptor] at hj
    · refine ⟨fun j hj => by simp at hj; omega, ?_, ?_⟩ <;> intro j hj <;>
        simp [profHasResource] at hj
    · refine ⟨fun j hj => by simp at hj; omega, ?_, ?_⟩ <;> intro j hj <;>
        simp [profHasRole] at hj
    · cases h
    · exact ⟨fun j hj => by simp at hj; omega, fun j hj => by simp [rdfFirst] at hj,
        fun j hj => by simp at hj; omega⟩
    · exact ih (Term.bnode (c + 1)) (c + 2) k (fun j hj => by simp at hj; omega)
        (by omega) t h

theorem applyPatch_chainTail (m : BaseMessage) (P : Graph) (node : Term) (c d : Nat)
    (ms : List BaseMessage) (hd : d = c + 2 * ms.length)
    (hP : ∀ t ∈ P, tailPred t = false)
    (hbn : ∀ t ∈ P ++ chainTail node c ms, Triple.bnBelow d t) :
    applyPatch (.condAppend (Term.bnode (d + 1))
        (descTriples (Term.bnode d) m ++
          [(Term.bnode (d + 1), rdfFirst, Term.bnode d),
           (Term.bnode (d + 1), rdfRest, rdfNil)]))
      (P ++ chainTail node c ms) =
      P ++ chainTail node c (ms ++ [m]) := by
  simp only [applyPatch]
  have hends : (P ++ chainTail node c ms).filter tailPred =
      [(lastNode node c ms, rdfRest, rdfNil)] := by
    rw [List.filter_append, List.filter_eq_nil_iff.mpr (fun t ht => by simp [hP t ht]),
      chainTail_filter_tail, List.nil_append]
  have hdel : (P ++ chainTail node c ms).filter (fun t => !tailPred t) =
      P ++ (chainTail node c ms).filter (fun t => !tailPred t) := by
    rw [List.filter_append, List.filter_eq_self.mpr (fun t ht => by simp [hP t ht])]
  rw [hends, hdel, List.map_cons, List.map_nil, List.flatMap_cons, List.flatMap_nil,
    List.append_nil]
  have hsub : ∀ u, u ∈ (P ++ chainTail node c ms) → Triple.bnBelow d u := hbn
  have hfresh : ∀ u ∈ ((lastNode node c ms, rdfRest, Term.bnode (d + 1)) ::
      (descTriples (Term.bnode d) m ++
        [(Term.bnode (d + 1), rdfFirst, Term.bnode d),
         (Term.bnode (d + 1), rdfRest, rdfNil)])),
      u ∉ P ++ (chainTail node c ms).filter (fun t => !tailPred t) := by
    intro u hu hmem
    have hin : u ∈ P ++ chainTail node c ms := by
      rcases List.mem_append.mp hmem with h | h
      · exact List.mem_append.mpr (Or.inl h)
      · exact List.mem_append.mpr (Or.inr (List.mem_of_mem_filter h))
    have hb := hsub u hin
    simp only [List.mem_cons, List.mem_append, descTriples, List.mem_singleton] at hu
    rcases hu with rfl | (rfl | rfl | rfl | h) | rfl | rfl | h
    · exact absurd (hb.2.2 (d + 1) rfl) (by omega)
    · exact absurd (hb.1 d rfl) (by omega)
    · exact absurd (hb.1 d rfl) (by omega)
    · exact absurd (hb.1 d rfl) (by omega)
    · cases h
    · exact absurd (hb.1 (d + 1) rfl) (by omega)
    · exact absurd (hb.1 (d + 1) rfl) (by omega)
    · cases h
  have hnd : ((lastNode node c ms, rdfRest, Term.bnode (d + 1)) ::
      (descTriples (Term.bnode d) m ++
        [(Term.bnode (d + 1), rdfFirst, Term.bnode d),
         (Term.bnode (d + 1), rdfRest, rdfNil)])).Nodup := by
    simp [descTriples, rdfType, rdfRest, rdfFirst, rdfNil, profHasResource, profHasRole,
      profResourceDescriptor]
  rw [addAll_fresh _ _ hfresh hnd]
  rw [List.append_assoc]
  rw [← chainTail_filter_notTail ms m node c d hd]

theorem history_valuePO (pod : String) (m0 : BaseMessage) (ms : List BaseMessage) :
    Graph.valuePO (historyGraph pod m0 ms) rdfType rdfList = some (msgsNode pod) := by
  unfold historyGraph descTriples
  rw [List.cons_append, List.cons_append, List.cons_append, List.nil_append]
  rw [valuePO_cons, if_neg (by simp [rdfType, rdfList, profResourceDescriptor])]
  rw [valuePO_cons, if_neg (by simp [rdfType, profHasResource])]
  rw [valuePO_cons, if_neg (by simp [rdfType, profHasRole])]
  rw [valuePO_cons, if_pos ⟨rfl, rfl⟩]

theorem history_bnBelow (pod : String) (m0 : BaseMessage) (ms : List BaseMessage) :
    ∀ t ∈ historyGraph pod m0 ms, Triple.bnBelow (2 + 2 * ms.length) t := by
  intro t ht
  unfold historyGraph at ht
  simp only [List.mem_append, List.mem_cons, descTriples, List.mem_singleton] at ht
  rcases ht with (rfl | rfl | rfl | h) | rfl | rfl | h
  · refine ⟨fun j hj => by simp at hj; omega, ?_, ?_⟩ <;> intro j hj <;>
      simp [rdfType, profResourceDescriptor] at hj
  · refine ⟨fun j hj => by simp at hj; omega, ?_, ?_⟩ <;> intro j hj <;>
      simp [profHasResource] at hj
  · refine ⟨fun j hj => by simp at hj; omega, ?_, ?_⟩ <;> intro j hj <;>
      simp [profHasRole] at hj
  · cases h
  · refine ⟨?_, ?_, ?_⟩ <;> intro j hj <;> simp [msgsNode, rdfType, rdfList] at hj
  · refine ⟨fun j hj => by simp [msgsNode] at hj, fun j hj => by simp [rdfFirst] at hj,
      fun j hj => by simp at hj; omega⟩
  · exact chainTail_bnBelow ms (msgsNode pod) 2 (2 + 2 * ms.length)
      (fun j hj => by simp [msgsNode] at hj) (by omega) t h

theorem history_step (pod : String) (m0 m : BaseMessage) (ms : List BaseMessage) :
    applyPatch (.condAppend (Term.bnode (2 + 2 * ms.length + 1))
        (descTriples (Term.bnode (2 + 2 * ms.length)) m ++
          [(Term.bnode (2 + 2 * ms.length + 1), rdfFirst, Term.bnode (2 + 2 * ms.length)),
           (Term.bnode (2 + 2 * ms.length + 1), rdfRest, rdfNil)]))
      (historyGraph pod m0 ms) = historyGraph pod m0 (ms ++ [m]) := by
  have hform : historyGraph pod m0 ms =
      (descTriples (Term.bnode 0) m0 ++
        [(msgsNode pod, rdfType, rdfList), (msgsNode pod, rdfFirst, Term.bnode 0)]) ++
        chainTail (msgsNode pod) 2 ms := by
    unfold historyGraph
    simp
  have hform2 : historyGraph pod m0 (ms ++ [m]) =
      (descTriples (Term.bnode 0) m0 ++
        [(msgsNode pod, rdfType, rdfList), (msgsNode pod, rdfFirst, Term.bnode 0)]) ++
        chainTail (msgsNode pod) 2 (ms ++ [m]) := by
    unfold historyGraph
    simp
  rw [hform, hform2]
  apply applyPatch_chainTail m _ _ 2 (2 + 2 * ms.length) ms (by omega)
  · intro t ht
    rcases List.mem_append.mp ht with h | h
    · exact tailPred_desc h
    · simp only [List.mem_cons, List.mem_singleton] at h
      rcases h with rfl | rfl | h
      · simp [tailPred, rdfType, rdfRest]
      · simp [tailPred, rdfFirst, rdfRest]
      · cases h
  · rw [← hform]
    exact history_bnBelow pod m0 ms

theorem appendK_cons_of_patch {pod : String} {g : Graph} {m : BaseMessage} {c : Nat}
    {p : Patch} (h : buildAppendPatch pod g m c = some p) (rest : List BaseMessage) :
    appendK pod g c (m :: rest) = appendK pod (applyPatch p g) (c + 2) rest := by
  show (match buildAppendPatch pod g m c with
    | none => none
    | some p => appendK pod (applyPatch p g) (c + 2) rest) = _
  rw [h]

theorem appendK_cons_history (pod : String) (m0 : BaseMessage) :
    ∀ (rest ms : List BaseMessage),
      appendK pod (historyGraph pod m0 ms) (2 + 2 * ms.length) rest =
        some (historyGraph pod m0 (ms ++ rest)) := by
  intro rest
  induction rest with
  | nil =>
    intro ms
    simp [appendK]
  | cons r rest ih =>
    intro ms
    rw [appendK_cons_of_patch
      (buildAppendPatch_some pod r (2 + 2 * ms.length) (history_valuePO pod m0 ms)) rest]
    rw [history_step pod m0 r ms]
    rw [show 2 + 2 * ms.length + 2 = 2 + 2 * (ms ++ [r]).length from by simp; omega]
    rw [ih (ms ++ [r])]
    simp

theorem appendK_history (pod : String) (m0 : BaseMessage) (msgs : List BaseMessage) :
    appendK pod [] 0 (m0 :: msgs) = some (historyGraph pod m0 msgs) := by
  have hbp := @buildAppendPatch_none [] pod m0 0 rfl
  rw [appendK_cons_of_patch hbp msgs]
  have happ : applyPatch (.insertData
      (descTriples (Term.bnode 0) m0 ++
        [(msgsNode pod, rdfType, rdfList), (msgsNode pod, rdfFirst, Term.bnode 0),
         (msgsNode pod, rdfRest, rdfNil)])) [] = historyGraph pod m0 [] := by
    simp only [applyPatch]
    rw [addAll_fresh _ _ (by simp) (by
      simp [descTriples, rdfType, rdfList, rdfFirst, rdfRest, rdfNil, profHasResource,
        profHasRole, profResourceDescriptor, msgsNode])]
    unfold historyGraph chainTail
    simp
  rw [happ]
  have := appendK_cons_history pod m0 msgs []
  simpa using this

theorem msgsNode_ne_rdfNil (pod : String) : msgsNode pod ≠ rdfNil := by
  intro h
  simp only [msgsNode, rdfNil, Term.uri.injEq] at h
  have h2 := congrArg String.data h
  rw [String.data_append] at h2
  have h3 := congrArg List.reverse h2
  rw [List.reverse_append] at h3
  rw [show ("private/chatdocs.ttl#messages" : String).data.reverse =
    's' :: ("private/chatdocs.ttl#message" : String).data.reverse from rfl] at h3
  rw [show ("http://www.w3.org/1999/02/22-rdf-syntax-ns#nil" : String).data.reverse =
    'l' :: ("http://www.w3.org/1999/02/22-rdf-syntax-ns#ni" : String).data.reverse from rfl] at h3
  simp at h3

theorem msgsNode_truthy (pod : String) : (msgsNode pod).truthy = true := by
  simp only [msgsNode, Term.truthy, decide_eq_true_eq]
  intro h
  have h2 := congrArg String.data h
  rw [String.data_append] at h2
  simp at h2

theorem valueSP_eq_none {g : Graph} {s p : Term}
    (h : ∀ t ∈ g, ¬(t.1 = s ∧ t.2.1 = p)) : Graph.valueSP g s p = none := by
  unfold Graph.valueSP
  rw [List.find?_eq_none.mpr (fun t ht => by simpa using h t ht)]
  rfl

theorem itemsAux_chain : ∀ (ms : List BaseMessage) (c : Nat) (node fv : Term) (P : Graph)
    (fuel : Nat) (chain : List Term),
    ms.length + 2 ≤ fuel →
    node.truthy = true →
    (∀ j, c ≤ j → node ≠ Term.bnode j) →
    node ≠ rdfNil →
    (∀ t ∈ P, ∀ j, c ≤ j → t.1 ≠ Term.bnode j) →
    (∀ t ∈ P, t.1 ≠ rdfNil) →
    (∀ t ∈ P, ¬(t.1 = node ∧ t.2.1 = rdfRest)) →
    Graph.valueSP P node rdfFirst = some fv →
    rdfNil ∉ chain →
    (∀ j, c ≤ j → Term.bnode j ∉ chain) →
    itemsAux (P ++ chainTail node c ms) fuel chain node = some (fv :: msgNodes c ms) := by
  intro ms
  induction ms with
  | nil =>
    intro c node fv P fuel chain hfuel htr hnodeB hnodeN hPB hPN hPnode hfv hchN hchB
    match fuel, hfuel with
    | f + 1, _ =>
    simp only [itemsAux, htr, if_true]
    rw [valueSP_append_left hfv]
    rw [show Graph.valueSP (P ++ chainTail node c []) node rdfRest = some rdfNil from by
      rw [valueSP_append_right (fun t ht => hPnode t ht)]
      show Graph.valueSP [(node, rdfRest, rdfNil)] node rdfRest = _
      rw [valueSP_cons, if_pos ⟨rfl, rfl⟩]]
    show (if rdfNil ∈ chain then none
      else Option.map (fun rest => [fv] ++ rest)
        (itemsAux (P ++ chainTail node c []) f (rdfNil :: chain) rdfNil)) =
      some (fv :: msgNodes c [])
    rw [if_neg hchN]
    have hf1 : 1 ≤ f := by omega
    match f, hf1 with
    | f2 + 1, _ =>
    have hnil1 : Graph.valueSP (P ++ chainTail node c []) rdfNil rdfFirst = none := by
      apply valueSP_eq_none
      intro t ht
      simp only [List.mem_append, chainTail, List.mem_singleton] at ht
      rintro ⟨h1, -⟩
      rcases ht with ht | rfl
      · exact hPN t ht h1
      · exact hnodeN h1
    have hnil2 : Graph.valueSP (P ++ chainTail node c []) rdfNil rdfRest = none := by
      apply valueSP_eq_none
      intro t ht
      simp only [List.mem_append, chainTail, List.mem_singleton] at ht
      rintro ⟨h1, -⟩
      rcases ht with ht | rfl
      · exact hPN t ht h1
      · exact hnodeN h1
    have htrN : rdfNil.truthy = true := by decide
    simp only [itemsAux, htrN, if_true, hnil1, hnil2]
    simp [msgNodes]
  | cons m ms ih =>
    intro c node fv P fuel chain hfuel htr hnodeB hnodeN hPB hPN hPnode hfv hchN hchB
    match fuel, hfuel with
    | f + 1, hf =>
    simp only [itemsAux, htr, if_true]
    rw [valueSP_append_left hfv]
    rw [show Graph.valueSP (P ++ chainTail node c (m :: ms)) node rdfRest =
        some (Term.bnode (c + 1)) from by
      rw [valueSP_append_right (fun t ht => hPnode t ht)]
      rw [show chainTail node c (m :: ms) = (node, rdfRest, Term.bnode (c + 1)) ::
        (descTriples (Term.bnode c) m ++
          ((Term.bnode (c + 1), rdfFirst, Term.bnode c) ::
            chainTail (Term.bnode (c + 1)) (c + 2) ms)) from rfl]
      rw [valueSP_cons, if_pos ⟨rfl, rfl⟩]]
    show (if Term.bnode (c + 1) ∈ chain then none
      else Option.map (fun rest => [fv] ++ rest)
        (itemsAux (P ++ chainTail node c (m :: ms)) f
          (Term.bnode (c + 1) :: chain) (Term.bnode (c + 1)))) =
      some (fv :: msgNodes c (m :: ms))
    rw [if_neg (hchB (c + 1) (by omega))]
    have hG : P ++ chainTail node c (m :: ms) =
        (P ++ ((node, rdfRest, Term.bnode (c + 1)) ::
          (descTriples (Term.bnode c) m ++ [(Term.bnode (c + 1), rdfFirst, Term.bnode c)]))) ++
          chainTail (Term.bnode (c + 1)) (c + 2) ms := by
      rw [show chainTail node c (m :: ms) = (node, rdfRest, Term.bnode (c + 1)) ::
        (descTriples (Term.bnode c) m ++
          ((Term.bnode (c + 1), rdfFirst, Term.bnode c) ::
            chainTail (Term.bnode (c + 1)) (c + 2) ms)) from rfl]
      simp
    rw [hG]
    rw [ih (c + 2) (Term.bnode (c + 1)) (Term.bnode c) _ f (Term.bnode (c + 1) :: chain)
      (by simp only [List.length_cons] at hf; omega) rfl
      (fun j hj => by simp; omega)
      (by simp [rdfNil])
      (by
        intro t ht j hj
        simp only [List.mem_append, List.mem_cons, descTriples, List.mem_singleton] at ht
        rcases ht with ht | rfl | (rfl | rfl | rfl | h) | rfl | h
        · exact hPB t ht j (by omega)
        · exact hnodeB j (by omega)
        · simp; omega
        · simp; omega
        · simp; omega
        · cases h
        · simp; omega
        · cases h)
      (by
        intro t ht
        simp only [List.mem_append, List.mem_cons, descTriples, List.mem_singleton] at ht
        rcases ht with ht | rfl | (rfl | rfl | rfl | h) | rfl | h
        · exact hPN t ht
        · exact hnodeN
        · simp [rdfNil]
        · simp [rdfNil]
        · simp [rdfNil]
        · cases h
        · simp [rdfNil]
        · cases h)
      (by
        intro t ht
        simp only [List.mem_append, List.mem_cons, descTriples, List.mem_singleton] at ht
        rcases ht with ht | rfl | (rfl | rfl | rfl | h) | rfl | h
        · rintro ⟨h1, -⟩
          exact hPB t ht (c + 1) (by omega) h1
        · rintro ⟨h1, -⟩
          exact hnodeB (c + 1) (by omega) h1
        · rintro ⟨h1, -⟩
          simp at h1
        · rintro ⟨h1, -⟩
          simp at h1
        · rintro ⟨h1, -⟩
          simp at h1
        · cases h
        · rintro ⟨-, h2⟩
          simp [rdfFirst, rdfRest] at h2
        · cases h)
      (by
        rw [valueSP_append_right (fun t ht => by
          rintro ⟨h1, -⟩
          exact hPB t ht (c + 1) (by omega) h1)]
        rw [valueSP_cons, if_neg (by
          rintro ⟨h1, -⟩
          exact hnodeB (c + 1) (by omega) h1)]
        rw [show descTriples (Term.bnode c) m ++ [(Term.bnode (c + 1), rdfFirst, Term.bnode c)] =
          (Term.bnode c, rdfType, profResourceDescriptor) ::
            (Term.bnode c, profHasResource, .lit m.content) ::
              (Term.bnode c, profHasRole, .lit m.type) ::
                [(Term.bnode (c + 1), rdfFirst, Term.bnode c)] from rfl]
        rw [valueSP_cons, if_neg (by rintro ⟨h1, -⟩; simp at h1)]
        rw [valueSP_cons, if_neg (by rintro ⟨h1, -⟩; simp at h1)]
        rw [valueSP_cons, if_neg (by rintro ⟨h1, -⟩; simp at h1)]
        rw [valueSP_cons, if_pos ⟨rfl, rfl⟩])
      (by
        simp only [List.mem_cons, not_or]
        exact ⟨by simp [rdfNil], hchN⟩)
      (fun j hj => by
        simp only [List.mem_cons, not_or]
        exact ⟨by simp; omega, hchB j (by omega)⟩)]
    simp [msgNodes]

theorem chainTail_length (ms : List BaseMessage) : ∀ (prev : Term) (c : Nat),
    (chainTail prev c ms).length = 5 * ms.length + 1 := by
  induction ms with
  | nil => intro prev c; rfl
  | cons m ms ih =>
    intro prev c
    show ((prev, rdfRest, Term.bnode (c + 1)) ::
      (descTriples (Term.bnode c) m ++
        ((Term.bnode (c + 1), rdfFirst, Term.bnode c) ::
          chainTail (Term.bnode (c + 1)) (c + 2) ms))).length = _
    simp [descTriples, ih]
    omega

theorem decodeMsgs_chain : ∀ (ms : List BaseMessage) (c : Nat) (node : Term) (P : Graph),
    (∀ t ∈ P, ∀ j, c ≤ j → t.1 ≠ Term.bnode j) →
    (∀ j, c ≤ j → node ≠ Term.bnode j) →
    decodeMsgs (P ++ chainTail node c ms) (msgNodes c ms) = some ms := by
  intro ms
  induction ms with
  | nil => intro c node P hPB hnodeB; rfl
  | cons m ms ih =>
    intro c node P hPB hnodeB
    show List.mapM (decodeMsg (P ++ chainTail node c (m :: ms)))
      (Term.bnode c :: msgNodes (c + 2) ms) = _
    rw [List.mapM_cons]
    have hhead : decodeMsg (P ++ chainTail node c (m :: ms)) (Term.bnode c) = some m := by
      unfold decodeMsg
      rw [show chainTail node c (m :: ms) = (node, rdfRest, Term.bnode (c + 1)) ::
        (descTriples (Term.bnode c) m ++
          ((Term.bnode (c + 1), rdfFirst, Term.bnode c) ::
            chainTail (Term.bnode (c + 1)) (c + 2) ms)) from rfl]
      rw [valueSP_append_right (fun t ht => by
        rintro ⟨h1, -⟩
        exact hPB t ht c (by omega) h1)]
      rw [valueSP_append_right (fun t ht => by
        rintro ⟨h1, -⟩
        exact hPB t ht c (by omega) h1)]
      rw [valueSP_cons, if_neg (by
        rintro ⟨h1, -⟩
        exact hnodeB c (by omega) h1)]
      rw [valueSP_cons, if_neg (by
        rintro ⟨h1, -⟩
        exact hnodeB c (by omega) h1)]
      rw [show descTriples (Term.bnode c) m ++
          ((Term.bnode (c + 1), rdfFirst, Term.bnode c) ::
            chainTail (Term.bnode (c + 1)) (c + 2) ms) =
        (Term.bnode c, rdfType, profResourceDescriptor) ::
          (Term.bnode c, profHasResource, .lit m.content) ::
            (Term.bnode c, profHasRole, .lit m.type) ::
              ((Term.bnode (c + 1), rdfFirst, Term.bnode c) ::
                chainTail (Term.bnode (c + 1)) (c + 2) ms) from rfl]
      rw [valueSP_cons, if_neg (by
        rintro ⟨-, h2⟩
        simp [rdfType, profHasResource] at h2)]
      rw [valueSP_cons, if_pos ⟨rfl, rfl⟩]
      rw [valueSP_cons, if_neg (by
        rintro ⟨-, h2⟩
        simp [rdfType, profHasRole] at h2)]
      rw [valueSP_cons, if_neg (by
        rintro ⟨-, h2⟩
        simp [profHasResource, profHasRole] at h2)]
      rw [valueSP_cons, if_pos ⟨rfl, rfl⟩]
      rfl
    rw [hhead]
    have hG : P ++ chainTail node c (m :: ms) =
        (P ++ ((node, rdfRest, Term.bnode (c + 1)) ::
          (descTriples (Term.bnode c) m ++ [(Term.bnode (c + 1), rdfFirst, Term.bnode c)]))) ++
          chainTail (Term.bnode (c + 1)) (c + 2) ms := by
      rw [show chainTail node c (m :: ms) = (node, rdfRest, Term.bnode (c + 1)) ::
        (descTriples (Term.bnode c) m ++
          ((Term.bnode (c + 1), rdfFirst, Term.bnode c) ::
            chainTail (Term.bnode (c + 1)) (c + 2) ms)) from rfl]
      simp
    have htail : List.mapM (decodeMsg (P ++ chainTail node c (m :: ms)))
        (msgNodes (c + 2) ms) = some ms := by
      rw [hG]
      exact ih (c + 2) (Term.bnode (c + 1)) _
        (by
          intro t ht j hj
          simp only [List.mem_append, List.mem_cons, descTriples, List.mem_singleton] at ht
          rcases ht with ht | rfl | (rfl | rfl | rfl | h) | rfl | h
          · exact hPB t ht j (by omega)
          · exact hnodeB j (by omega)
          · simp; omega
          · simp; omega
          · simp; omega
          · cases h
          · simp; omega
          · cases h)
        (fun j hj => by simp; omega)
    rw [htail]
    rfl

theorem decode_historyGraph (pod : String) (m0 : BaseMessage) (ms : List BaseMessage) :
    decodeGraph (historyGraph pod m0 ms) = some (m0 :: ms) := by
  unfold decodeGraph
  rw [history_valuePO]
  have hform : historyGraph pod m0 ms =
      (descTriples (Term.bnode 0) m0 ++
        [(msgsNode pod, rdfType, rdfList), (msgsNode pod, rdfFirst, Term.bnode 0)]) ++
        chainTail (msgsNode pod) 2 ms := by
    unfold historyGraph
    simp
  have hitems : items (historyGraph pod m0 ms) (msgsNode pod) =
      some (Term.bnode 0 :: msgNodes 2 ms) := by
    unfold items
    rw [hform]
    apply itemsAux_chain ms 2 (msgsNode pod) (Term.bnode 0) _ _ [msgsNode pod]
    · rw [List.length_append, chainTail_length]
      simp [descTriples]
      omega
    · exact msgsNode_truthy pod
    · intro j hj
      simp [msgsNode]
    · exact msgsNode_ne_rdfNil pod
    · intro t ht j hj
      simp only [List.mem_append, descTriples, List.mem_cons, List.mem_singleton] at ht
      rcases ht with (rfl | rfl | rfl | h) | rfl | rfl | h
      · simp; omega
      · simp; omega
      · simp; omega
      · cases h
      · simp [msgsNode]
      · simp [msgsNode]
      · cases h
    · intro t ht
      simp only [List.mem_append, descTriples, List.mem_cons, List.mem_singleton] at ht
      rcases ht with (rfl | rfl | rfl | h) | rfl | rfl | h
      · simp [rdfNil]
      · simp [rdfNil]
      · simp [rdfNil]
      · cases h
      · exact msgsNode_ne_rdfNil pod
      · exact msgsNode_ne_rdfNil pod
      · cases h
    · intro t ht
      simp only [List.mem_append, descTriples, List.mem_cons, List.mem_singleton] at ht
      rcases ht with (rfl | rfl | rfl | h) | rfl | rfl | h
      · rintro ⟨h1, -⟩
        simp [msgsNode] at h1
      · rintro ⟨h1, -⟩
        simp [msgsNode] at h1
      · rintro ⟨h1, -⟩
        simp [msgsNode] at h1
      · cases h
      · rintro ⟨-, h2⟩
        simp [rdfType, rdfRest] at h2
      · rintro ⟨-, h2⟩
        simp [rdfFirst, rdfRest] at h2
      · cases h
    · rw [show descTriples (Term.bnode 0) m0 ++
          [(msgsNode pod, rdfType, rdfList), (msgsNode pod, rdfFirst, Term.bnode 0)] =
        (Term.bnode 0, rdfType, profResourceDescriptor) ::
          (Term.bnode 0, profHasResource, .lit m0.content) ::
            (Term.bnode 0, profHasRole, .lit m0.type) ::
              (msgsNode pod, rdfType, rdfList) ::
                [(msgsNode pod, rdfFirst, Term.bnode 0)] from rfl]
      rw [valueSP_cons, if_neg (by rintro ⟨h1, -⟩; simp [msgsNode] at h1)]
      rw [valueSP_cons, if_neg (by rintro ⟨h1, -⟩; simp [msgsNode] at h1)]
      rw [valueSP_cons, if_neg (by rintro ⟨h1, -⟩; simp [msgsNode] at h1)]
      rw [valueSP_cons, if_neg (by rintro ⟨-, h2⟩; simp [rdfType, rdfFirst] at h2)]
      rw [valueSP_cons, if_pos ⟨rfl, rfl⟩]
    · intro h
      simp only [List.mem_singleton] at h
      exact msgsNode_ne_rdfNil pod h.symm
    · intro j hj h
      simp only [List.mem_singleton] at h
      simp [msgsNode] at h
  show (items (historyGraph pod m0 ms) (msgsNode pod)).bind (decodeMsgs (historyGraph pod m0 ms)) =
    some (m0 :: ms)
  rw [hitems]
  show decodeMsgs (historyGraph pod m0 ms) (Term.bnode 0 :: msgNodes 2 ms) = some (m0 :: ms)
  unfold decodeMsgs
  rw [List.mapM_cons]
  have hhead : decodeMsg (historyGraph pod m0 ms) (Term.bnode 0) = some m0 := by
    unfold decodeMsg
    rw [show historyGraph pod m0 ms =
      (Term.bnode 0, rdfType, profResourceDescriptor) ::
        (Term.bnode 0, profHasResource, .lit m0.content) ::
          (Term.bnode 0, profHasRole, .lit m0.type) ::
            ((msgsNode pod, rdfType, rdfList) :: (msgsNode pod, rdfFirst, Term.bnode 0) ::
              chainTail (msgsNode pod) 2 ms) from rfl]
    rw [valueSP_cons, if_neg (by rintro ⟨-, h2⟩; simp [rdfType, profHasResource] at h2)]
    rw [valueSP_cons, if_pos ⟨rfl, rfl⟩]
    rw [valueSP_cons, if_neg (by rintro ⟨-, h2⟩; simp [rdfType, profHasRole] at h2)]
    rw [valueSP_cons, if_neg (by rintro ⟨-, h2⟩; simp [profHasResource, profHasRole] at h2)]
    rw [valueSP_cons, if_pos ⟨rfl, rfl⟩]
    rfl
  rw [hhead]
  have htail : List.mapM (decodeMsg (historyGraph pod m0 ms)) (msgNodes 2 ms) = some ms := by
    rw [hform]
    have := decodeMsgs_chain ms 2 (msgsNode pod)
      (descTriples (Term.bnode 0) m0 ++
        [(msgsNode pod, rdfType, rdfList), (msgsNode pod, rdfFirst, Term.bnode 0)])
      (by
        intro t ht j hj
        simp only [List.mem_append, descTriples, List.mem_cons, List.mem_singleton] at ht
        rcases ht with (rfl | rfl | rfl | h) | rfl | rfl | h
        · simp; omega
        · simp; omega
        · simp; omega
        · cases h
        · simp [msgsNode]
        · simp [msgsNode]
        · cases h)
      (fun j hj => by simp [msgsNode])
    exact this
  rw [htail]
  rfl

theorem valuePO_eq_none {g : Graph} {p o : Term}
    (h : ∀ t ∈ g, ¬(t.2.1 = p ∧ t.2.2 = o)) : Graph.valuePO g p o = none := by
  unfold Graph.valuePO
  rw [List.find?_eq_none.mpr (fun t ht => by simpa using h t ht)]
  rfl

/-- Claim C3: starting from an empty graph, building and applying the
append patch for each of K successive messages (each patch built from
the graph left by the previous application) and then decoding yields
exactly those K messages, contents and role tags preserved, in
insertion order. -/
theorem C3_roundtrip (pod : String) (msgs : List BaseMessage) :
    roundTrip pod msgs = some msgs := by
  cases msgs with
  | nil => rfl
  | cons m0 ms =>
    unfold roundTrip
    rw [appendK_history pod m0 ms]
    show decodeGraph (historyGraph pod m0 ms) = some (m0 :: ms)
    exact decode_historyGraph pod m0 ms

/-- Claim C8: on a graph with no `rdf:List`-typed node, `add_message`
builds an insert-only patch creating the head node (typed `rdf:List`,
serving as the single element node) whose `rdf:first` points to a fresh
descriptor carrying the message content and role and whose `rdf:rest`
points to the terminator `rdf:nil`. -/
theorem C8_insert_only (pod : String) (g : Graph) (m : BaseMessage) (c : Nat)
    (h : ∀ t ∈ g, ¬(t.2.1 = rdfType ∧ t.2.2 = rdfList)) :
    buildAppendPatch pod g m c = some (.insertData
      [(Term.bnode c, rdfType, profResourceDescriptor),
       (Term.bnode c, profHasResource, .lit m.content),
       (Term.bnode c, profHasRole, .lit m.type),
       (msgsNode pod, rdfType, rdfList),
       (msgsNode pod, rdfFirst, Term.bnode c),
       (msgsNode pod, rdfRest, rdfNil)]) := by
  rw [buildAppendPatch_none pod m c (valuePO_eq_none h)]
  rfl

/-- Witness for C8 at a concrete graph without a list head. -/
theorem C8_insert_only_witness :
    buildAppendPatch "https://pod.example/" [(.uri "s", .uri "p", .uri "o")] ⟨"hi", "human"⟩ 0 =
      some (.insertData
        [(Term.bnode 0, rdfType, profResourceDescriptor),
         (Term.bnode 0, profHasResource, .lit "hi"),
         (Term.bnode 0, profHasRole, .lit "human"),
         (msgsNode "https://pod.example/", rdfType, rdfList),
         (msgsNode "https://pod.example/", rdfFirst, Term.bnode 0),
         (msgsNode "https://pod.example/", rdfRest, rdfNil)]) :=
  C8_insert_only "https://pod.example/" [(.uri "s", .uri "p", .uri "o")] ⟨"hi", "human"⟩ 0
    (by decide)

/-- Claim C9: decoding a graph that contains no `rdf:List`-typed node
returns the empty message list without raising. -/
theorem C9_decode_no_head (g : Graph)
    (h : ∀ t ∈ g, ¬(t.2.1 = rdfType ∧ t.2.2 = rdfList)) :
    decodeGraph g = some [] := by
  unfold decodeGraph
  rw [valuePO_eq_none h]

/-- Witness for C9 at a concrete headless graph. -/
theorem C9_decode_no_head_witness :
    decodeGraph [(.uri "s", .uri "p", .uri "o"), (.uri "a", rdfRest, rdfNil)] = some [] :=
  C9_decode_no_head [(.uri "s", .uri "p", .uri "o"), (.uri "a", rdfRest, rdfNil)] (by decide)

/-- Claim C10: the role tag is never validated; `add_message` stores
any role string verbatim as the `PROF.hasRole` literal of the new
descriptor, and appending a message with an arbitrary role to a fresh
store and decoding returns that role unchanged. -/
theorem C10_role_verbatim (pod content roleTag : String) (g : Graph) (c : Nat) :
    (∀ p, buildAppendPatch pod g ⟨content, roleTag⟩ c = some p →
      (Term.bnode c, profHasRole, Term.lit roleTag) ∈ Patch.insertTriples p) ∧
    roundTrip pod [⟨content, roleTag⟩] = some [⟨content, roleTag⟩] := by
  constructor
  · intro p hp
    cases hh : Graph.valuePO g rdfType rdfList with
    | none =>
      rw [buildAppendPatch_none pod ⟨content, roleTag⟩ c hh] at hp
      cases hp
      simp [Patch.insertTriples, descTriples]
    | some ln =>
      rw [buildAppendPatch_some pod ⟨content, roleTag⟩ c hh] at hp
      cases hp
      simp [Patch.insertTriples, descTriples]
  · unfold roundTrip
    rw [appendK_history pod ⟨content, roleTag⟩ []]
    show decodeGraph (historyGraph pod ⟨content, roleTag⟩ []) = _
    exact decode_historyGraph pod ⟨content, roleTag⟩ []

/-- Witness for C10 with a role string that is neither of the two
canonical values. -/
theorem C10_role_verbatim_witness :
    (Term.bnode 0, profHasRole, Term.lit "not-a-canonical-role") ∈
      Patch.insertTriples (.insertData
        [(Term.bnode 0, rdfType, profResourceDescriptor),
         (Term.bnode 0, profHasResource, .lit "x"),
         (Term.bnode 0, profHasRole, .lit "not-a-canonical-role"),
         (msgsNode "p/", rdfType, rdfList),
         (msgsNode "p/", rdfFirst, Term.bnode 0),
         (msgsNode "p/", rdfRest, rdfNil)]) ∧
    roundTrip "p/" [⟨"x", "not-a-canonical-role"⟩] = some [⟨"x", "not-a-canonical-role"⟩] :=
  ⟨(C10_role_verbatim "p/" "x" "not-a-canonical-role" [] 0).1 _ (by decide),
   (C10_role_verbatim "p/" "x" "not-a-canonical-role" [] 0).2⟩

/-- Claim C2: on a graph holding a list head, `add_message` builds the
conditional delete-insert patch whose condition matches the node with
`rdf:rest rdf:nil` (the tail); applying it removes that tail-pointer
triple and inserts the fresh element node between the old tail and the
terminator together with the new message descriptor, leaving every
other triple in place. -/
theorem C2_tail_patch (pod : String) (g : Graph) (m : BaseMessage) (c : Nat) (ln e : Term)
    (hhead : Graph.valuePO g rdfType rdfList = some ln)
    (htail : (e, rdfRest, rdfNil) ∈ g)
    (huniq : ∀ t ∈ g, t.2.1 = rdfRest → t.2.2 = rdfNil → t.1 = e)
    (hfresh : e ≠ Term.bnode (c + 1)) :
    buildAppendPatch pod g m c = some (.condAppend (Term.bnode (c + 1))
      [(Term.bnode c, rdfType, profResourceDescriptor),
       (Term.bnode c, profHasResource, .lit m.content),
       (Term.bnode c, profHasRole, .lit m.type),
       (Term.bnode (c + 1), rdfFirst, Term.bnode c),
       (Term.bnode (c + 1), rdfRest, rdfNil)]) ∧
    ∀ g2, applyPatch (.condAppend (Term.bnode (c + 1))
        [(Term.bnode c, rdfType, profResourceDescriptor),
         (Term.bnode c, profHasResource, .lit m.content),
         (Term.bnode c, profHasRole, .lit m.type),
         (Term.bnode (c + 1), rdfFirst, Term.bnode c),
         (Term.bnode (c + 1), rdfRest, rdfNil)]) g = g2 →
      (e, rdfRest, rdfNil) ∉ g2 ∧
      (e, rdfRest, Term.bnode (c + 1)) ∈ g2 ∧
      (Term.bnode (c + 1), rdfFirst, Term.bnode c) ∈ g2 ∧
      (Term.bnode (c + 1), rdfRest, rdfNil) ∈ g2 ∧
      (Term.bnode c, profHasResource, Term.lit m.content) ∈ g2 ∧
      (Term.bnode c, profHasRole, Term.lit m.type) ∈ g2 ∧
      ∀ t ∈ g, t ≠ (e, rdfRest, rdfNil) → t ∈ g2 := by
  constructor
  · rw [buildAppendPatch_some pod m c hhead]
    rfl
  · intro g2 hg2
    subst hg2
    simp only [applyPatch]
    have hmemends : e ∈ (g.filter tailPred).map (fun t => t.1) :=
      List.mem_map.mpr ⟨(e, rdfRest, rdfNil),
        List.mem_filter.mpr ⟨htail, by simp [tailPred]⟩, rfl⟩
    refine ⟨?_, ?_, ?_, ?_, ?_, ?_, ?_⟩
    · intro hmem
      rcases mem_addAll.mp hmem with hdel | hins
      · rcases List.mem_filter.mp hdel with ⟨-, hb⟩
        simp [tailPred] at hb
      · rcases List.mem_flatMap.mp hins with ⟨a, -, hblock⟩
        simp only [List.mem_cons, List.mem_singleton] at hblock
        rcases hblock with heq | heq | heq | heq | heq | heq | h
        · simp [rdfNil] at heq
        · simp [rdfRest, rdfType] at heq
        · simp [rdfRest, profHasResource] at heq
        · simp [rdfRest, profHasRole] at heq
        · simp [rdfRest, rdfFirst] at heq
        · exact hfresh (by simpa using heq)
        · cases h
    · exact mem_addAll.mpr (Or.inr (List.mem_flatMap.mpr ⟨e, hmemends, by simp⟩))
    · exact mem_addAll.mpr (Or.inr (List.mem_flatMap.mpr ⟨e, hmemends, by simp⟩))
    · exact mem_addAll.mpr (Or.inr (List.mem_flatMap.mpr ⟨e, hmemends, by simp⟩))
    · exact mem_addAll.mpr (Or.inr (List.mem_flatMap.mpr ⟨e, hmemends, by simp⟩))
    · exact mem_addAll.mpr (Or.inr (List.mem_flatMap.mpr ⟨e, hmemends, by simp⟩))
    · intro t htg htne
      have htp : tailPred t = false := by
        cases htp2 : tailPred t with
        | false => rfl
        | true =>
          exfalso
          simp only [tailPred, decide_eq_true_eq] at htp2
          obtain ⟨t1, t2, t3⟩ := t
          simp only at htp2
          obtain ⟨rfl, rfl⟩ := htp2
          have h1 : t1 = e := huniq (t1, rdfRest, rdfNil) htg rfl rfl
          exact htne (by rw [h1])
      exact mem_addAll.mpr (Or.inl (List.mem_filter.mpr ⟨htg, by simp [htp]⟩))

/-- Witness for C2 at the one-message history graph, whose tail is the
head node itself. -/
theorem C2_tail_patch_witness :
    buildAppendPatch "p/" (historyGraph "p/" ⟨"hi", "human"⟩ []) ⟨"yo", "ai"⟩ 2 =
      some (.condAppend (Term.bnode 3)
        [(Term.bnode 2, rdfType, profResourceDescriptor),
         (Term.bnode 2, profHasResource, .lit "yo"),
         (Term.bnode 2, profHasRole, .lit "ai"),
         (Term.bnode 3, rdfFirst, Term.bnode 2),
         (Term.bnode 3, rdfRest, rdfNil)]) :=
  (C2_tail_patch "p/" (historyGraph "p/" ⟨"hi", "human"⟩ []) ⟨"yo", "ai"⟩ 2
    (msgsNode "p/") (msgsNode "p/") (by decide) (by decide) (by decide) (by decide)).1

/-- Claim C1 is false on the code: a PATCH answered with status 500 (a
failed remote write) still leaves `add_message` applying the patch to
the mirror, which therefore changes. -/
theorem C1_counterexample :
    add_message "p/" (.resp 500 []) [] ⟨"hi", "human"⟩ 0 =
      .ok (historyGraph "p/" ⟨"hi", "human"⟩ []) ∧
    historyGraph "p/" ⟨"hi", "human"⟩ [] ≠ ([] : Graph) := ⟨rfl, by decide⟩

/-- Claim C1 as amended: `add_message` applies the patch to the mirror
unconditionally whenever the PATCH call returns a response, whatever
its status; only a connection error (which raises before the local
update) leaves the mirror unchanged. -/
theorem C1_amended (pod : String) (status : Nat) (body g : Graph) (m : BaseMessage)
    (c : Nat) (p : Patch) (h : buildAppendPatch pod g m c = some p) :
    add_message pod (.resp status body) g m c = .ok (applyPatch p g) ∧
    add_message pod .connErr g m c = .error () := by
  unfold add_message
  rw [h]
  exact ⟨rfl, rfl⟩

/-- Witness for the amended C1 at a failed-response PATCH on the empty
mirror. -/
theorem C1_amended_witness :
    add_message "p/" (.resp 500 []) [] ⟨"hi", "human"⟩ 0 =
      .ok (applyPatch (.insertData
        [(Term.bnode 0, rdfType, profResourceDescriptor),
         (Term.bnode 0, profHasResource, .lit "hi"),
         (Term.bnode 0, profHasRole, .lit "human"),
         (msgsNode "p/", rdfType, rdfList),
         (msgsNode "p/", rdfFirst, Term.bnode 0),
         (msgsNode "p/", rdfRest, rdfNil)]) []) ∧
    add_message "p/" .connErr [] ⟨"hi", "human"⟩ 0 = .error () :=
  C1_amended "p/" 500 [] [] ⟨"hi", "human"⟩ 0 _ (by decide)

/-- Claim C4 is false on the code: a successful GET whose body parses
to the empty graph leaves a non-empty mirror unchanged (rdflib `parse`
adds to the graph instead of replacing it), so the mirror is not
replaced wholesale by the response body. -/
theorem C4_counterexample :
    messages ⟨.resp 200 [], .resp 200 [], .resp 200 [], .resp 200 [], .resp 200 []⟩
      [(.uri "s", .uri "p", .uri "o")] =
      .ok ([(.uri "s", .uri "p", .uri "o")], []) ∧
    ([(.uri "s", .uri "p", .uri "o")] : Graph) ≠ ([] : Graph) := ⟨rfl, by decide⟩

/-- Claim C4 as amended: on a successful GET, `messages` merges the
parsed body into the mirror — the merged graph contains every previous
mirror triple and every body triple — and returns the decoding of that
merged graph. -/
theorem C4_amended (env : MessagesEnv) (mirror body : Graph) (status : Nat)
    (h1 : is_item_available env.headContainer = true)
    (h2 : is_item_available env.headDoc = true)
    (h3 : env.getDoc = .resp status body) (h4 : status < 400) :
    ∀ g msgs, messages env mirror = .ok (g, msgs) →
      g = graphParse mirror body ∧ (∀ t ∈ mirror, t ∈ g) ∧ (∀ t ∈ body, t ∈ g) ∧
        decodeGraph g = some msgs := by
  intro g msgs hm
  unfold messages at hm
  simp only [h1, h2, h3, if_true] at hm
  rw [if_pos h4] at hm
  cases hd : decodeGraph (graphParse mirror body) with
  | none =>
    rw [hd] at hm
    simp at hm
  | some ms2 =>
    rw [hd] at hm
    simp only [Except.ok.injEq, Prod.mk.injEq] at hm
    obtain ⟨h5, h6⟩ := hm
    subst h5
    subst h6
    refine ⟨rfl, ?_, ?_, hd⟩
    · intro t ht
      exact mem_addAll.mpr (Or.inl ht)
    · intro t ht
      exact mem_addAll.mpr (Or.inr ht)

/-- Witness for the amended C4: reading a one-message document into an
empty mirror yields that document as the mirror and its message as the
result. -/
theorem C4_amended_witness :
    historyGraph "p/" ⟨"hi", "human"⟩ [] = graphParse [] (historyGraph "p/" ⟨"hi", "human"⟩ []) ∧
    (∀ t ∈ ([] : Graph), t ∈ historyGraph "p/" ⟨"hi", "human"⟩ []) ∧
    (∀ t ∈ historyGraph "p/" ⟨"hi", "human"⟩ [], t ∈ historyGraph "p/" ⟨"hi", "human"⟩ []) ∧
    decodeGraph (historyGraph "p/" ⟨"hi", "human"⟩ []) = some [⟨"hi", "human"⟩] :=
  C4_amended ⟨.resp 200 [], .resp 200 [], .resp 200 [], .resp 200 [],
      .resp 200 (historyGraph "p/" ⟨"hi", "human"⟩ [])⟩ [] (historyGraph "p/" ⟨"hi", "human"⟩ [])
    200 rfl rfl rfl (by decide) (historyGraph "p/" ⟨"hi", "human"⟩ []) [⟨"hi", "human"⟩] rfl

/-- Claim C5 is false on the code: a connection error on the GET inside
`messages` is not caught, so `list()` raises instead of returning an
empty sequence. -/
theorem C5_counterexample :
    messages ⟨.resp 200 [], .resp 200 [], .resp 200 [], .resp 200 [], .connErr⟩ [] =
      .error () := rfl

theorem ensure_step_ok {headOut putOut : Outcome}
    (h : is_item_available headOut = true ∨ ∃ s b, putOut = .resp s b) :
    ∃ v, (if is_item_available headOut then (.ok true : Except Unit Bool)
          else create_item putOut) = .ok v := by
  by_cases hc : is_item_available headOut = true
  · exact ⟨true, by simp [hc]⟩
  · rcases h with h | ⟨s, b, rfl⟩
    · exact absurd h hc
    · exact ⟨decide (s < 400), by simp [hc, create_item]⟩

/-- Claim C5 as amended: for requests that return responses, the three
operations never raise — a non-success GET degrades `messages` to the
empty list with the mirror untouched (also when a failed HEAD probe
made a creation PUT run, as long as that PUT returned a response),
`add_message` completes (still updating the mirror) for any PATCH
status, and `clear` resets the mirror for any DELETE status — but a
connection error on the GET, either creation PUT, the PATCH or the
DELETE propagates as an exception: only the HEAD existence probe
catches a connection error, turning it into `False`. -/
theorem C5_amended (env : MessagesEnv) (mirror : Graph) (pod : String) (status : Nat)
    (body g : Graph) (m : BaseMessage) (c : Nat) :
    ((is_item_available env.headContainer = true ∨ ∃ s b, env.putContainer = .resp s b) →
     (is_item_available env.headDoc = true ∨ ∃ s b, env.putDoc = .resp s b) →
     env.getDoc = .resp status body → ¬ status < 400 →
     messages env mirror = .ok (mirror, [])) ∧
    ((is_item_available env.headContainer = true ∨ ∃ s b, env.putContainer = .resp s b) →
     (is_item_available env.headDoc = true ∨ ∃ s b, env.putDoc = .resp s b) →
     env.getDoc = .connErr → messages env mirror = .error ()) ∧
    is_item_available .connErr = false ∧
    (is_item_available env.headContainer = false → env.putContainer = .connErr →
     messages env mirror = .error ()) ∧
    ((is_item_available env.headContainer = true ∨ ∃ s b, env.putContainer = .resp s b) →
     is_item_available env.headDoc = false → env.putDoc = .connErr →
     messages env mirror = .error ()) ∧
    (∃ g2, add_message pod (.resp status body) g m c = .ok g2) ∧
    add_message pod .connErr g m c = .error () ∧
    clear (.resp status body) g = .ok [] ∧
    clear .connErr g = .error () := by
  refine ⟨?_, ?_, rfl, ?_, ?_, ?_, ?_, rfl, rfl⟩
  · intro hc hd h3 h4
    obtain ⟨v1, hs1⟩ := ensure_step_ok hc
    obtain ⟨v2, hs2⟩ := ensure_step_ok hd
    unfold messages
    simp only [hs1, hs2, h3]
    rw [if_neg h4]
  · intro hc hd h3
    obtain ⟨v1, hs1⟩ := ensure_step_ok hc
    obtain ⟨v2, hs2⟩ := ensure_step_ok hd
    unfold messages
    simp only [hs1, hs2, h3]
  · intro hc hp
    unfold messages
    simp [hc, hp, create_item]
  · intro hc hd hp
    obtain ⟨v1, hs1⟩ := ensure_step_ok hc
    unfold messages
    simp only [hs1]
    simp [hd, hp, create_item]
  · obtain ⟨p, hp⟩ := buildAppendPatch_isSome pod g m c
    refine ⟨applyPatch p g, ?_⟩
    unfold add_message
    rw [hp]
  · obtain ⟨p, hp⟩ := buildAppendPatch_isSome pod g m c
    unfold add_message
    rw [hp]

/-- Witness for the amended C5: a 500 GET yields the empty list without
raising; a connection error during the creation PUT after a 404 HEAD
probe raises out of `messages`; the probe itself turns a connection
error into `False`; connection errors on PATCH and DELETE raise. -/
theorem C5_amended_witness :
    messages ⟨.resp 200 [], .resp 200 [], .resp 200 [], .resp 200 [], .resp 500 []⟩
      [(.uri "s", .uri "p", .uri "o")] = .ok ([(.uri "s", .uri "p", .uri "o")], []) ∧
    messages ⟨.resp 404 [], .connErr, .resp 200 [], .resp 200 [], .resp 200 []⟩ [] =
      .error () ∧
    messages ⟨.connErr, .resp 201 [], .resp 404 [], .connErr, .resp 200 []⟩ [] =
      .error () ∧
    is_item_available .connErr = false ∧
    add_message "p/" .connErr [] ⟨"hi", "human"⟩ 0 = .error () ∧
    clear .connErr ([] : Graph) = .error () :=
  ⟨(C5_amended ⟨.resp 200 [], .resp 200 [], .resp 200 [], .resp 200 [], .resp 500 []⟩
      [(.uri "s", .uri "p", .uri "o")] "p/" 500 [] [] ⟨"hi", "human"⟩ 0).1
      (Or.inl rfl) (Or.inl rfl) rfl (by decide),
   (C5_amended ⟨.resp 404 [], .connErr, .resp 200 [], .resp 200 [], .resp 200 []⟩
      [] "p/" 500 [] [] ⟨"hi", "human"⟩ 0).2.2.2.1 rfl rfl,
   (C5_amended ⟨.connErr, .resp 201 [], .resp 404 [], .connErr, .resp 200 []⟩
      [] "p/" 500 [] [] ⟨"hi", "human"⟩ 0).2.2.2.2.1 (Or.inr ⟨201, [], rfl⟩) rfl rfl,
   (C5_amended ⟨.resp 200 [], .resp 200 [], .resp 200 [], .resp 200 [], .resp 500 []⟩
      [] "p/" 500 [] [] ⟨"hi", "human"⟩ 0).2.2.1,
   (C5_amended ⟨.resp 200 [], .resp 200 [], .resp 200 [], .resp 200 [], .resp 500 []⟩
      [] "p/" 500 [] [] ⟨"hi", "human"⟩ 0).2.2.2.2.2.2.1,
   (C5_amended ⟨.resp 200 [], .resp 200 [], .resp 200 [], .resp 200 [], .resp 500 []⟩
      [] "p/" 500 [] [] ⟨"hi", "human"⟩ 0).2.2.2.2.2.2.2.2⟩

/-- Claim C6 is false on the code: `create_item` returns `res.ok`, and
a 412 response to the conditional PUT is not ok, so the lost creation
race is reported as `false` rather than treated as success. -/
theorem C6_counterexample :
    create_item (.resp 412 []) = .ok false ∧
    ensure (.resp 404 []) (.resp 412 []) = .ok false := ⟨rfl, rfl⟩

/-- Claim C6 as amended: the check-and-create path returns a boolean
without raising on any HEAD/PUT response (the returned boolean is
simply `res.ok` of whichever request settled it, so a 412 yields
`false`); a connection error during the HEAD probe is caught, while a
connection error during the creation PUT propagates as the raw
transport exception. -/
theorem C6_amended (hs ps : Nat) (hb pb : Graph) :
    ensure (.resp hs hb) (.resp ps pb) = .ok (decide (hs < 400) || decide (ps < 400)) ∧
    ensure .connErr (.resp ps pb) = .ok (decide (ps < 400)) ∧
    (¬ hs < 400 → ensure (.resp hs hb) .connErr = .error ()) ∧
    ensure .connErr .connErr = .error () := by
  refine ⟨?_, rfl, ?_, rfl⟩
  · by_cases h : hs < 400 <;> simp [ensure, is_item_available, create_item, h]
  · intro h
    simp [ensure, is_item_available, create_item, h]

/-- Witness for the amended C6 at the 404-then-412 creation race, and
at a connection error during creation. -/
theorem C6_amended_witness :
    ensure (.resp 404 []) (.resp 412 []) =
      .ok (decide ((404 : Nat) < 400) || decide ((412 : Nat) < 400)) ∧
    ensure (.resp 404 []) .connErr = .error () :=
  ⟨(C6_amended 404 412 [] []).1, (C6_amended 404 412 [] []).2.2.1 (by decide)⟩

/-- Claim C7 is false on the code: after a `clear` whose DELETE fails
with status 500 (mirror reset all the same), a `list()` whose GET
returns the surviving one-message document yields that message — not
the empty sequence — so clear-then-list is not empty regardless of
prior content. -/
theorem C7_counterexample :
    clear (.resp 500 []) (historyGraph "p/" ⟨"hi", "human"⟩ []) = .ok [] ∧
    messages ⟨.resp 200 [], .resp 200 [], .resp 200 [], .resp 200 [],
        .resp 200 (historyGraph "p/" ⟨"hi", "human"⟩ [])⟩ [] =
      .ok (historyGraph "p/" ⟨"hi", "human"⟩ [], [⟨"hi", "human"⟩]) ∧
    ([⟨"hi", "human"⟩] : List BaseMessage) ≠ [] := ⟨rfl, rfl, by decide⟩

/-- Claim C7 as amended: `clear` resets the mirror to empty after the
DELETE returns any response, regardless of its status, while a
connection error during the DELETE raises and skips the reset; and a
completed `clear` followed by a `list()` whose GET yields an empty
document (or fails) returns the empty sequence. -/
theorem C7_amended (status s2 : Nat) (body mirror : Graph) (env : MessagesEnv)
    (h1 : is_item_available env.headContainer = true)
    (h2 : is_item_available env.headDoc = true)
    (h3 : env.getDoc = .resp s2 []) :
    clear (.resp status body) mirror = .ok [] ∧
    clear .connErr mirror = .error () ∧
    messages env [] = .ok ([], []) := by
  refine ⟨rfl, rfl, ?_⟩
  unfold messages
  simp only [h1, h2, h3, if_true]
  by_cases h4 : s2 < 400
  · rw [if_pos h4]
    rfl
  · rw [if_neg h4]

/-- Witness for the amended C7: a failed DELETE still resets; a
connection-error DELETE raises; list after clear on the recreated
empty document is empty. -/
theorem C7_amended_witness :
    clear (.resp 500 []) (historyGraph "p/" ⟨"hi", "human"⟩ []) = .ok [] ∧
    clear .connErr (historyGraph "p/" ⟨"hi", "human"⟩ []) = .error () ∧
    messages ⟨.resp 200 [], .resp 200 [], .resp 200 [], .resp 200 [], .resp 200 []⟩ [] =
      .ok ([], []) :=
  C7_amended 500 200 [] (historyGraph "p/" ⟨"hi", "human"⟩ [])
    ⟨.resp 200 [], .resp 200 [], .resp 200 [], .resp 200 [], .resp 200 []⟩ rfl rfl rfl

end SolidHistory
